import Mathlib

/-!
Verification of the meal-description normalization pipeline of the
voice-nourish app: the `transcribe-and-analyze` edge function
(supabase/functions/transcribe-and-analyze/index.ts) and the meal-total
aggregation of the dashboard (src/pages/Dashboard.tsx, `computeTotals`).

JavaScript values produced by `JSON.parse` are modelled by the inductive
`JVal` (numbers as rationals); JavaScript objects are ordered association
lists of fields.  Property access on `null` throws, so it is modelled in
the `Except` monad.  Platform primitives that the function merely calls
(the two OpenAI calls, `JSON.parse`, string-to-number coercion) are
parameters of the model.
-/

namespace VoiceNourish

/-- JSON values: strings, numbers (modelled as rationals), booleans, null,
arrays, and objects as ordered association lists of fields. -/
inductive JVal : Type
  | jstr (s : String)
  | jnum (q : ℚ)
  | jbool (b : Bool)
  | jnull
  | jarr (elems : List JVal)
  | jobj (fields : List (String × JVal))

/-- Pure property lookup: field lookup on objects, `undefined` (`none`)
on every other non-null value. -/
def jsGet : JVal → String → Option JVal
  | .jobj fields, k => (fields.find? (fun f => f.1 == k)).map (fun f => f.2)
  | _, _ => none

/-- JavaScript property access `v.k`: throws a TypeError when `v` is null,
otherwise yields the property (or `undefined`, modelled as `none`). -/
def getProp (v : JVal) (k : String) : Except String (Option JVal) :=
  match v with
  | .jnull => .error ("TypeError: Cannot read properties of null (reading " ++ k ++ ")")
  | _ => .ok (jsGet v k)

/-- The seven known macro/identity keys (index.ts line 11, and the same
constant in Dashboard.tsx line 473). -/
def KNOWN_KEYS : List String := ["qty", "n", "cal", "p", "c", "f", "fib"]

/-- ASCII letter, either case: what `[a-z]` matches under the regex `i` flag. -/
def isAsciiAlpha (c : Char) : Bool :=
  (97 ≤ c.toNat && c.toNat ≤ 122) || (65 ≤ c.toNat && c.toNat ≤ 90)

/-- The unit-suffix alternation of the micronutrient key regex, lowercased. -/
def MICRO_UNITS : List String := ["mg", "mcg", "iu", "g", "mgdl", "mmoll"]

/-- ASCII-lowercase a string (JavaScript regex `i`-flag canonicalisation
folds only ASCII case for an ASCII pattern). -/
def lowerStr (s : String) : String := String.mk (s.toList.map Char.toLower)

/-- The micronutrient key test `/^[a-z]{1,4}_(mg|mcg|iu|g|mgdL|mmolL)$/i.test k`
(index.ts line 124): some abbreviation length 1..4 of ASCII letters of either
case, an underscore, then exactly one of the unit tokens in any case. -/
def microKeyMatch (s : String) : Bool :=
  (List.range 4).any (fun i =>
    let abbrLen := i + 1
    let cs := s.toList
    ((cs.take abbrLen).length == abbrLen) &&
    (cs.take abbrLen).all isAsciiAlpha &&
    (match cs.drop abbrLen with
     | c :: rest => (c == '_') && MICRO_UNITS.contains (String.mk (rest.map Char.toLower))
     | [] => false))

/-- `typeof x === "string"` on a possibly-undefined value. -/
def isStrOpt : Option JVal → Bool
  | some (.jstr _) => true
  | _ => false

/-- `typeof x === "number"` on a possibly-undefined value. -/
def isNumOpt : Option JVal → Bool
  | some (.jnum _) => true
  | _ => false

/-- `typeof v === "number"` on a present value. -/
def isNumV : JVal → Bool
  | .jnum _ => true
  | _ => false

/-- JavaScript property assignment `obj[k] = v` on an object modelled as an
ordered field list: update in place when the key exists, append otherwise. -/
def objSet (fields : List (String × JVal)) (k : String) (v : JVal) :
    List (String × JVal) :=
  if fields.any (fun f => f.1 == k) then
    fields.map (fun f => if f.1 == k then (f.1, v) else f)
  else fields ++ [(k, v)]

/-- `if (typeof x === "string") cleaned.k = x;` (index.ts lines 114-115). -/
def setIfStr (fields : List (String × JVal)) (k : String) :
    Option JVal → List (String × JVal)
  | some (.jstr s) => objSet fields k (.jstr s)
  | _ => fields

/-- `if (typeof x === "number") cleaned.k = x;` (index.ts lines 116-120). -/
def setIfNum (fields : List (String × JVal)) (k : String) :
    Option JVal → List (String × JVal)
  | some (.jnum q) => objSet fields k (.jnum q)
  | _ => fields

/-- `Object.entries(v)`: the fields of an object, index/element pairs of an
array, index/character pairs of a string, empty for other primitives. -/
def jsEntries : JVal → List (String × JVal)
  | .jobj fields => fields
  | .jarr elems =>
      ((List.range elems.length).zip elems).map (fun p => (toString p.1, p.2))
  | .jstr s =>
      ((List.range s.toList.length).zip s.toList).map
        (fun p => (toString p.1, JVal.jstr (String.mk [p.2])))
  | _ => []

/-- One step of the sanitize map (index.ts lines 111-128): read the seven
known properties (throwing on a null item), copy each one that has the
expected type, then append every other entry whose value is a number and
whose key matches the micronutrient pattern. -/
def sanitizeItem (item : JVal) : Except String (List (String × JVal)) := do
  let qty ← getProp item "qty"
  let n ← getProp item "n"
  let cal ← getProp item "cal"
  let p ← getProp item "p"
  let c ← getProp item "c"
  let f ← getProp item "f"
  let fib ← getProp item "fib"
  let base :=
    setIfNum (setIfNum (setIfNum (setIfNum (setIfNum
      (setIfStr (setIfStr [] "qty" qty) "n" n) "cal" cal) "p" p) "c" c)
      "f" f) "fib" fib
  let cleaned := (jsEntries item).foldl
    (fun acc kv =>
      if !(KNOWN_KEYS.contains kv.1) && isNumV kv.2 && microKeyMatch kv.1 then
        objSet acc kv.1 kv.2
      else acc) base
  pure cleaned

/-- `Array.prototype.map` with a throwing callback: elements are processed
left to right and the first thrown exception propagates. -/
def mapJs {α β : Type} (f : α → Except String β) : List α → Except String (List β)
  | [] => .ok []
  | x :: xs => do
    let y ← f x
    let ys ← mapJs f xs
    .ok (y :: ys)

/-- The sanitize step over the whole parsed value (index.ts lines 109-131):
`Array.isArray(parsed.items) ? parsed.items.map(sanitizeItem) : []`.
Property access `parsed.items` throws when `parsed` is null, and the map
propagates the first thrown TypeError. -/
def sanitize (parsed : JVal) : Except String (List (List (String × JVal))) := do
  let itemsField ← getProp parsed "items"
  match itemsField with
  | some (.jarr elems) => mapJs sanitizeItem elems
  | _ => pure []

/-- The seven known-key copies of the sanitizer applied to a (non-null) item,
written with the pure property lookup. -/
def sanitizeBase (item : JVal) : List (String × JVal) :=
  setIfNum (setIfNum (setIfNum (setIfNum (setIfNum
    (setIfStr (setIfStr [] "qty" (jsGet item "qty")) "n" (jsGet item "n"))
    "cal" (jsGet item "cal")) "p" (jsGet item "p")) "c" (jsGet item "c"))
    "f" (jsGet item "f")) "fib" (jsGet item "fib")

/-- One iteration of the micronutrient loop (index.ts lines 123-127). -/
def microStep (acc : List (String × JVal)) (kv : String × JVal) :
    List (String × JVal) :=
  if !(KNOWN_KEYS.contains kv.1) && isNumV kv.2 && microKeyMatch kv.1 then
    objSet acc kv.1 kv.2
  else acc

/-- The value `sanitizeItem` computes on any non-null item. -/
def sanitizePure (item : JVal) : List (String × JVal) :=
  (jsEntries item).foldl microStep (sanitizeBase item)

/-- `typeof v === "string"` on a present value. -/
def isStrV : JVal → Bool
  | .jstr _ => true
  | _ => false

/-- The declared type of a known key: `qty` and `n` hold strings, the five
macro keys hold numbers. -/
def knownTypeOk (k : String) (v : JVal) : Bool :=
  if k == "qty" || k == "n" then isStrV v else isNumV v

/-- The sanitization field invariant: one of the seven known keys with its
declared type, or a micronutrient-pattern key with a numeric value. -/
def fieldOk (kv : String × JVal) : Prop :=
  (kv.1 = "qty" ∧ ∃ s, kv.2 = JVal.jstr s) ∨
  (kv.1 = "n" ∧ ∃ s, kv.2 = JVal.jstr s) ∨
  (kv.1 = "cal" ∧ ∃ q, kv.2 = JVal.jnum q) ∨
  (kv.1 = "p" ∧ ∃ q, kv.2 = JVal.jnum q) ∨
  (kv.1 = "c" ∧ ∃ q, kv.2 = JVal.jnum q) ∨
  (kv.1 = "f" ∧ ∃ q, kv.2 = JVal.jnum q) ∨
  (kv.1 = "fib" ∧ ∃ q, kv.2 = JVal.jnum q) ∨
  (microKeyMatch kv.1 = true ∧ ∃ q, kv.2 = JVal.jnum q)

/-- Spelled-out shape of a key accepted by the micronutrient pattern: an
abbreviation of 1 to 4 ASCII letters of either case, an underscore, and a
unit suffix that lowercases to one of the six unit tokens. -/
def microKeySpec (s : String) : Prop :=
  ∃ a u, s = a ++ "_" ++ u ∧ 1 ≤ a.length ∧ a.length ≤ 4 ∧
    (∀ c ∈ a.toList, isAsciiAlpha c = true) ∧ lowerStr u ∈ MICRO_UNITS

/-- A sanitized micronutrient field: numeric value under a pattern key. -/
def microOk (kv : String × JVal) : Prop :=
  (∃ q, kv.2 = JVal.jnum q) ∧ microKeySpec kv.1

/-- A multipart form field value: a binary blob (File is a Blob) or plain text. -/
inductive FormVal : Type
  | blob (bytes : List Nat)
  | text (s : String)

/-- The parts of an incoming request the handler inspects. -/
structure JsRequest where
  method : String
  contentType : Option String
  form : List (String × FormVal)

/-- A response: status code and JSON body (none for the null preflight body). -/
structure JsResponse where
  status : Nat
  body : Option JVal

/-- The handler environment: the `OPENAI_API_KEY` variable and the two
upstream capabilities, each either throwing (with a message) or returning
its payload; the structuring call receives the transcript. -/
structure Env where
  apiKey : Option String
  transcribe : Except String (Option String)
  complete : String → Except String (Option String)

/-- `formData.get(k)`: first entry with the key, or null when absent. -/
def formGet (form : List (String × FormVal)) (k : String) : Option FormVal :=
  (form.find? (fun f => f.1 == k)).map (fun f => f.2)

/-- The error body shape `JSON.stringify({ error: message })`. -/
def errBody (msg : String) : JVal := .jobj [("error", .jstr msg)]

/-- The canonical empty result `{ items: [] }`. -/
def emptyItemsJson : JVal := .jobj [("items", .jarr [])]

/-- The fallback raw string used when the completion has no content
(index.ts line 98). -/
def defaultRaw : String := "\x7b\"items\": []\x7d"

/-- Does `pat` occur as a contiguous subsequence of the second list? -/
def containsSeq (pat : List Char) : List Char → Bool
  | [] => pat.isEmpty
  | c :: rest => List.isPrefixOf pat (c :: rest) || containsSeq pat rest

/-- `contentType.includes("multipart/form-data")`. -/
def hasMultipart (ct : String) : Bool :=
  containsSeq "multipart/form-data".toList ct.toList

def msgExpectedMultipart : String :=
  "Expected multipart/form-data with a \x27file\x27 field"

def msgNoFile : String := "No audio file provided under \x27file\x27"

def msgNoKey : String := "OPENAI_API_KEY is not set"

/-- The serve handler (index.ts lines 13-144), instrumented with the list of
upstream calls made.  `jp` models the platform `JSON.parse`, returning
`none` exactly when parsing throws. -/
def handleT (jp : String → Option JVal) (env : Env) (req : JsRequest) :
    JsResponse × List String :=
  if req.method == "OPTIONS" then
    (⟨200, none⟩, [])
  else
    match env.apiKey with
    | none => (⟨500, some (errBody msgNoKey)⟩, [])
    | some _ =>
      if !(hasMultipart (req.contentType.getD "")) then
        (⟨400, some (errBody msgExpectedMultipart)⟩, [])
      else
        match formGet req.form "file" with
        | some (FormVal.blob _) =>
          (match env.transcribe with
           | .error e => (⟨500, some (errBody e)⟩, ["transcribe"])
           | .ok t =>
             let transcribedText := t.getD ""
             match env.complete transcribedText with
             | .error e => (⟨500, some (errBody e)⟩, ["transcribe", "complete"])
             | .ok content =>
               let raw :=
                 match content with
                 | some s => if s.isEmpty then defaultRaw else s
                 | none => defaultRaw
               let parsed := (jp raw).getD emptyItemsJson
               match sanitize parsed with
               | .error e => (⟨500, some (errBody e)⟩, ["transcribe", "complete"])
               | .ok items =>
                 (⟨200, some (JVal.jobj [("items", JVal.jarr (items.map JVal.jobj))])⟩,
                  ["transcribe", "complete"]))
        | _ => (⟨400, some (errBody msgNoFile)⟩, [])

/-- The handler response alone. -/
def handle (jp : String → Option JVal) (env : Env) (req : JsRequest) : JsResponse :=
  (handleT jp env req).1

/-- The upstream calls the handler made. -/
def callsMade (jp : String → Option JVal) (env : Env) (req : JsRequest) : List String :=
  (handleT jp env req).2

/-- Values stored in a TokenItem on the dashboard side: numbers or strings. -/
inductive TVal : Type
  | tnum (q : ℚ)
  | tstr (s : String)

/-- A TokenItem as the confirmation modal holds it: an object with string
keys and string-or-number values. -/
abbrev TokenItem := List (String × TVal)

/-- Property lookup on a TokenItem. -/
def tGet (it : TokenItem) (k : String) : Option TVal :=
  (it.find? (fun f => f.1 == k)).map (fun f => f.2)

/-- `Number(x || 0)` as computeTotals applies it to a macro field: absent
gives 0, a number passes through (0 itself is falsy but `Number(0)` is 0),
an empty string is falsy and gives 0, any other string goes through the
platform string-to-number coercion `toNum`. -/
def jsNumber (toNum : String → ℚ) : Option TVal → ℚ
  | some (.tnum q) => q
  | some (.tstr s) => if s.isEmpty then 0 else toNum s
  | none => 0

/-- The accumulator of computeTotals (Dashboard.tsx lines 512-531). -/
structure Totals where
  total_calories : ℚ
  protein : ℚ
  carbs : ℚ
  fat : ℚ
  fiber : ℚ
  micronutrients : List (String × ℚ)

/-- `acc.micronutrients[k] = (acc.micronutrients[k] || 0) + v`. -/
def microAdd (m : List (String × ℚ)) (k : String) (q : ℚ) : List (String × ℚ) :=
  if m.any (fun p => p.1 == k) then
    m.map (fun p => if p.1 == k then (p.1, p.2 + q) else p)
  else m ++ [(k, q)]

/-- One reduce step of computeTotals: add the five macro fields through the
`Number(x || 0)` coercion, then fold every non-known numeric entry into the
micronutrient map. -/
def stepItem (toNum : String → ℚ) (acc : Totals) (it : TokenItem) : Totals :=
  let withMacros : Totals :=
    { acc with
      total_calories := acc.total_calories + jsNumber toNum (tGet it "cal")
      protein := acc.protein + jsNumber toNum (tGet it "p")
      carbs := acc.carbs + jsNumber toNum (tGet it "c")
      fat := acc.fat + jsNumber toNum (tGet it "f")
      fiber := acc.fiber + jsNumber toNum (tGet it "fib") }
  { withMacros with
    micronutrients := it.foldl
      (fun m kv =>
        match kv.2 with
        | TVal.tnum q => if KNOWN_KEYS.contains kv.1 then m else microAdd m kv.1 q
        | _ => m) withMacros.micronutrients }

/-- `computeTotals` (Dashboard.tsx lines 512-531): reduce over the item list
starting from all-zero totals and an empty micronutrient map. -/
def computeTotals (toNum : String → ℚ) (list : List TokenItem) : Totals :=
  list.foldl (stepItem toNum) ⟨0, 0, 0, 0, 0, []⟩

/-! Concrete fixtures used by witnesses and counterexamples. -/

/-- A structured item mixing valid fields and one rejected field. -/
def itemW : JVal :=
  JVal.jobj [("qty", JVal.jstr "2 slices"), ("cal", JVal.jnum 160),
             ("k_mg", JVal.jnum 200), ("notes", JVal.jstr "x")]

/-- A parsed root around `itemW`. -/
def parsedW : JVal := JVal.jobj [("items", JVal.jarr [itemW])]

/-- The sanitized form of `itemW`. -/
def cleanedW : List (String × JVal) :=
  [("qty", JVal.jstr "2 slices"), ("cal", JVal.jnum 160), ("k_mg", JVal.jnum 200)]

/-- A parsed root with an empty item and `itemW`. -/
def parsedW2 : JVal := JVal.jobj [("items", JVal.jarr [JVal.jobj [], itemW])]

/-- A parsed root whose items array contains a JSON null. -/
def parsedNull : JVal := JVal.jobj [("items", JVal.jarr [JVal.jnull])]

/-- The raw completion output that parses to `parsedNull`. -/
def rawNull : String := "\x7b\"items\": [null]\x7d"

/-- A JSON.parse model that parses exactly `rawNull` (to `parsedNull`). -/
def jpNull : String → Option JVal :=
  fun s => if s == rawNull then some parsedNull else none

/-- A JSON.parse model on which every string fails to parse. -/
def jpNone : String → Option JVal := fun _ => none

/-- An environment with the credential set and both capabilities succeeding. -/
def envOk : Env :=
  ⟨some "k", Except.ok (some "meal description"), fun _ => Except.ok (some "not json")⟩

/-- An environment whose completion returns `rawNull`. -/
def envNull : Env :=
  ⟨some "k", Except.ok (some "meal description"), fun _ => Except.ok (some rawNull)⟩

/-- An environment with the credential absent. -/
def envNoKey : Env := ⟨none, Except.ok none, fun _ => Except.ok none⟩

/-- An environment whose transcription call throws. -/
def envTrFail : Env := ⟨some "k", Except.error "transcribe down", fun _ => Except.ok none⟩

/-- An environment whose structuring call throws. -/
def envCoFail : Env :=
  ⟨some "k", Except.ok (some "meal description"), fun _ => Except.error "complete down"⟩

/-- A well-formed multipart POST carrying a blob under file. -/
def reqStd : JsRequest :=
  ⟨"POST", some "multipart/form-data; boundary=x", [("file", FormVal.blob [0])]⟩

/-- A POST with a non-multipart content type. -/
def reqBadCT : JsRequest := ⟨"POST", some "application/json", []⟩

/-- A multipart POST with no file field. -/
def reqNoFile : JsRequest := ⟨"POST", some "multipart/form-data; boundary=x", []⟩

/-- A multipart POST whose file field is plain text, not a blob. -/
def reqTextFile : JsRequest :=
  ⟨"POST", some "multipart/form-data; boundary=x", [("file", FormVal.text "hello")]⟩

/-- An item whose calories field holds a string. -/
def itemWrong : JVal := JVal.jobj [("cal", JVal.jstr "160"), ("qty", JVal.jstr "1")]

/-- An item with an uppercase micronutrient key. -/
def itemUpper : JVal := JVal.jobj [("K_MG", JVal.jnum 5)]

/-- A parsed root around `itemUpper`. -/
def parsedUpper : JVal := JVal.jobj [("items", JVal.jarr [itemUpper])]

/-- The two-item list of the aggregation example. -/
def exampleItems : List TokenItem :=
  [[("cal", TVal.tnum 100), ("p", TVal.tnum 5)],
   [("cal", TVal.tnum 200), ("p", TVal.tnum 10)]]

/-! Helper lemmas. -/

theorem foldl_preserve {α β : Type} (Q : β → Prop) (f : β → α → β)
    (hf : ∀ b a, Q b → Q (f b a)) :
    ∀ (l : List α) (b : β), Q b → Q (l.foldl f b) := by
  intro l
  induction l with
  | nil => intro b hb; exact hb
  | cons a t ih => intro b hb; exact ih (f b a) (hf b a hb)

theorem objSet_forall (P : String × JVal → Prop) (fields : List (String × JVal))
    (k : String) (v : JVal) (hfs : ∀ x ∈ fields, P x) (hkv : P (k, v)) :
    ∀ x ∈ objSet fields k v, P x := by
  intro x hx
  unfold objSet at hx
  by_cases hc : (fields.any (fun f => f.1 == k)) = true
  · rw [if_pos hc] at hx
    rcases List.mem_map.mp hx with ⟨f, hf, hfx⟩
    by_cases hb : (f.1 == k) = true
    · rw [if_pos hb] at hfx
      have hk : f.1 = k := by simpa using hb
      subst hfx
      rw [hk]
      exact hkv
    · rw [if_neg hb] at hfx
      subst hfx
      exact hfs f hf
  · rw [if_neg hc] at hx
    rcases List.mem_append.mp hx with hl | hr
    · exact hfs x hl
    · rw [List.mem_singleton.mp hr]
      exact hkv

theorem setIfStr_forall (P : String × JVal → Prop) (fields : List (String × JVal))
    (k : String) (o : Option JVal) (hfs : ∀ x ∈ fields, P x)
    (hk : ∀ s, P (k, JVal.jstr s)) :
    ∀ x ∈ setIfStr fields k o, P x := by
  intro x hx
  cases o with
  | none => exact hfs x hx
  | some v =>
    cases v with
    | jstr s => exact objSet_forall P fields k _ hfs (hk s) x hx
    | jnum q => exact hfs x hx
    | jbool b => exact hfs x hx
    | jnull => exact hfs x hx
    | jarr es => exact hfs x hx
    | jobj fs => exact hfs x hx

theorem setIfNum_forall (P : String × JVal → Prop) (fields : List (String × JVal))
    (k : String) (o : Option JVal) (hfs : ∀ x ∈ fields, P x)
    (hk : ∀ q, P (k, JVal.jnum q)) :
    ∀ x ∈ setIfNum fields k o, P x := by
  intro x hx
  cases o with
  | none => exact hfs x hx
  | some v =>
    cases v with
    | jstr s => exact hfs x hx
    | jnum q => exact objSet_forall P fields k _ hfs (hk q) x hx
    | jbool b => exact hfs x hx
    | jnull => exact hfs x hx
    | jarr es => exact hfs x hx
    | jobj fs => exact hfs x hx

theorem sanitizeBase_forall (item : JVal) : ∀ x ∈ sanitizeBase item, fieldOk x := by
  have h0 : ∀ x ∈ ([] : List (String × JVal)), fieldOk x := by
    intro x hx; cases hx
  have h1 := setIfStr_forall fieldOk [] "qty" (jsGet item "qty") h0
    (fun s => Or.inl ⟨rfl, s, rfl⟩)
  have h2 := setIfStr_forall fieldOk _ "n" (jsGet item "n") h1
    (fun s => Or.inr (Or.inl ⟨rfl, s, rfl⟩))
  have h3 := setIfNum_forall fieldOk _ "cal" (jsGet item "cal") h2
    (fun q => Or.inr (Or.inr (Or.inl ⟨rfl, q, rfl⟩)))
  have h4 := setIfNum_forall fieldOk _ "p" (jsGet item "p") h3
    (fun q => Or.inr (Or.inr (Or.inr (Or.inl ⟨rfl, q, rfl⟩))))
  have h5 := setIfNum_forall fieldOk _ "c" (jsGet item "c") h4
    (fun q => Or.inr (Or.inr (Or.inr (Or.inr (Or.inl ⟨rfl, q, rfl⟩)))))
  have h6 := setIfNum_forall fieldOk _ "f" (jsGet item "f") h5
    (fun q => Or.inr (Or.inr (Or.inr (Or.inr (Or.inr (Or.inl ⟨rfl, q, rfl⟩))))))
  have h7 := setIfNum_forall fieldOk _ "fib" (jsGet item "fib") h6
    (fun q => Or.inr (Or.inr (Or.inr (Or.inr (Or.inr (Or.inr (Or.inl ⟨rfl, q, rfl⟩)))))))
  exact h7

theorem isNumV_eq_jnum (v : JVal) (h : isNumV v = true) : ∃ q, v = JVal.jnum q := by
  cases v with
  | jnum q => exact ⟨q, rfl⟩
  | jstr s => simp [isNumV] at h
  | jbool b => simp [isNumV] at h
  | jnull => simp [isNumV] at h
  | jarr es => simp [isNumV] at h
  | jobj fs => simp [isNumV] at h

theorem microStep_forall (acc : List (String × JVal)) (kv : String × JVal)
    (h : ∀ x ∈ acc, fieldOk x) : ∀ x ∈ microStep acc kv, fieldOk x := by
  rcases kv with ⟨k, v⟩
  unfold microStep
  by_cases hc : (!(KNOWN_KEYS.contains k) && isNumV v && microKeyMatch k) = true
  · rw [if_pos hc]
    simp only [Bool.and_eq_true] at hc
    rcases isNumV_eq_jnum v hc.1.2 with ⟨q, rfl⟩
    exact objSet_forall fieldOk acc k _ h
      (Or.inr (Or.inr (Or.inr (Or.inr (Or.inr (Or.inr (Or.inr ⟨hc.2, q, rfl⟩)))))))
  · rw [if_neg hc]
    exact h

theorem sanitizePure_forall (item : JVal) : ∀ x ∈ sanitizePure item, fieldOk x :=
  foldl_preserve (fun acc => ∀ x ∈ acc, fieldOk x) microStep
    (fun b a hb => microStep_forall b a hb) (jsEntries item) (sanitizeBase item)
    (sanitizeBase_forall item)

theorem sanitizeItem_eq (item : JVal) (h : item ≠ JVal.jnull) :
    sanitizeItem item = .ok (sanitizePure item) := by
  cases item with
  | jnull => exact absurd rfl h
  | jstr s => rfl
  | jnum q => rfl
  | jbool b => rfl
  | jarr es => rfl
  | jobj fs => rfl

theorem sanitizeItem_fieldOk (item : JVal) (cl : List (String × JVal))
    (h : sanitizeItem item = .ok cl) : ∀ kv ∈ cl, fieldOk kv := by
  by_cases hn : item = JVal.jnull
  · subst hn
    simp [sanitizeItem, getProp, Bind.bind, Except.bind] at h
  · rw [sanitizeItem_eq item hn] at h
    have : sanitizePure item = cl := by
      injection h
    rw [← this]
    exact sanitizePure_forall item

theorem mapJs_ok_mem {α β : Type} (f : α → Except String β) :
    ∀ (l : List α) (ys : List β), mapJs f l = .ok ys →
      ∀ y ∈ ys, ∃ x ∈ l, f x = .ok y := by
  intro l
  induction l with
  | nil =>
    intro ys h y hy
    simp [mapJs] at h
    subst h
    cases hy
  | cons a t ih =>
    intro ys h y hy
    rcases ha : f a with e | b
    · simp [mapJs, ha, Bind.bind, Except.bind] at h
    · rcases ht : mapJs f t with e | bs
      · simp [mapJs, ha, ht, Bind.bind, Except.bind] at h
      · simp [mapJs, ha, ht, Bind.bind, Except.bind] at h
        subst h
        rcases List.mem_cons.mp hy with rfl | hmem
        · exact ⟨a, List.mem_cons_self a t, ha⟩
        · rcases ih bs ht y hmem with ⟨x, hx, hfx⟩
          exact ⟨x, List.mem_cons_of_mem a hx, hfx⟩

theorem sanitize_ok_cases (parsed : JVal) (items : List (List (String × JVal)))
    (h : sanitize parsed = .ok items) :
    items = [] ∨ ∃ elems, jsGet parsed "items" = some (JVal.jarr elems) ∧
      mapJs sanitizeItem elems = .ok items := by
  cases parsed with
  | jnull => simp [sanitize, getProp, Bind.bind, Except.bind] at h
  | jstr s =>
    left
    simp [sanitize, getProp, jsGet, pure, Except.pure, Bind.bind, Except.bind] at h
    exact h
  | jnum q =>
    left
    simp [sanitize, getProp, jsGet, pure, Except.pure, Bind.bind, Except.bind] at h
    exact h
  | jbool b =>
    left
    simp [sanitize, getProp, jsGet, pure, Except.pure, Bind.bind, Except.bind] at h
    exact h
  | jarr es =>
    left
    simp [sanitize, getProp, jsGet, pure, Except.pure, Bind.bind, Except.bind] at h
    exact h
  | jobj fs =>
    rcases hj : jsGet (JVal.jobj fs) "items" with _ | v
    · left
      simp [sanitize, getProp, hj, pure, Except.pure, Bind.bind, Except.bind] at h
      exact h
    · cases v with
      | jarr es =>
        right
        refine ⟨es, rfl, ?_⟩
        simpa [sanitize, getProp, hj, Bind.bind, Except.bind] using h
      | jstr s =>
        left
        simp [sanitize, getProp, hj, pure, Except.pure, Bind.bind, Except.bind] at h
        exact h
      | jnum q =>
        left
        simp [sanitize, getProp, hj, pure, Except.pure, Bind.bind, Except.bind] at h
        exact h
      | jbool b =>
        left
        simp [sanitize, getProp, hj, pure, Except.pure, Bind.bind, Except.bind] at h
        exact h
      | jnull =>
        left
        simp [sanitize, getProp, hj, pure, Except.pure, Bind.bind, Except.bind] at h
        exact h
      | jobj fs2 =>
        left
        simp [sanitize, getProp, hj, pure, Except.pure, Bind.bind, Except.bind] at h
        exact h

theorem sanitize_fieldOk (parsed : JVal) (items : List (List (String × JVal)))
    (h : sanitize parsed = .ok items) : ∀ it ∈ items, ∀ kv ∈ it, fieldOk kv := by
  intro it hit kv hkv
  rcases sanitize_ok_cases parsed items h with rfl | ⟨elems, hj, hmap⟩
  · cases hit
  · rcases mapJs_ok_mem sanitizeItem elems items hmap it hit with ⟨x, hx, hfx⟩
    exact sanitizeItem_fieldOk x it hfx kv hkv

/-- C1: for every parsed input, every field of every item emitted by the
sanitization step is either one of the seven known keys with its declared
type (qty and n strings, the rest numbers), or a key matching the
case-insensitive micronutrient pattern with a numeric value; no other field
appears in the sanitized output. -/
theorem spec_C1_sanitized_fields (parsed : JVal) (items : List (List (String × JVal)))
    (h : sanitize parsed = .ok items) : ∀ it ∈ items, ∀ kv ∈ it, fieldOk kv :=
  sanitize_fieldOk parsed items h

/-- Witness for C1: the sanitization invariant applied to a concrete parsed
value whose item carries a micronutrient field. -/
theorem spec_C1_witness : fieldOk ("k_mg", JVal.jnum 200) :=
  spec_C1_sanitized_fields parsedW [cleanedW] rfl cleanedW (by simp)
    ("k_mg", JVal.jnum 200) (by simp [cleanedW])

theorem mapJs_ok_length {α β : Type} (f : α → Except String β) :
    ∀ l : List α, (∀ x ∈ l, ∃ y, f x = .ok y) →
      Except.map List.length (mapJs f l) = .ok l.length := by
  intro l
  induction l with
  | nil => intro _; rfl
  | cons a t ih =>
    intro hall
    rcases hall a (List.mem_cons_self a t) with ⟨y, hy⟩
    have ht := ih (fun x hx => hall x (List.mem_cons_of_mem a hx))
    rcases hmt : mapJs f t with e | bs
    · rw [hmt] at ht
      simp [Except.map] at ht
    · rw [hmt] at ht
      simp [Except.map] at ht
      simp [mapJs, hy, hmt, Bind.bind, Except.bind, Except.map, ht]

/-- C2 counterexample: on the successfully parsed structure
whose items array is the one-element array holding JSON null, sanitization
does not return an equal-length array; the member access on the null item
throws and the whole request is answered with a server error instead. -/
theorem spec_C2_counterexample :
    sanitize parsedNull =
      Except.error "TypeError: Cannot read properties of null (reading qty)" ∧
    handle jpNull envNull reqStd =
      ⟨500, some (errBody "TypeError: Cannot read properties of null (reading qty)")⟩ :=
  ⟨rfl, rfl⟩

/-- C2 (amended): for every parsed structure whose items array contains no
null element, sanitization succeeds and the output array has exactly the
same length as the input array; invalid fields are dropped within an item
but the item itself is kept (an all-invalid item yields an empty object).
A null element instead aborts the request with a thrown TypeError. -/
theorem spec_C2_length (parsed : JVal) (elems : List JVal)
    (hj : jsGet parsed "items" = some (JVal.jarr elems))
    (hnn : ∀ x ∈ elems, x ≠ JVal.jnull) :
    Except.map List.length (sanitize parsed) = .ok elems.length := by
  cases parsed with
  | jnull => simp [jsGet] at hj
  | jstr s => simp [jsGet] at hj
  | jnum q => simp [jsGet] at hj
  | jbool b => simp [jsGet] at hj
  | jarr es => simp [jsGet] at hj
  | jobj fs =>
    have hs : sanitize (JVal.jobj fs) = mapJs sanitizeItem elems := by
      simp [sanitize, getProp, hj, Bind.bind, Except.bind]
    rw [hs]
    exact mapJs_ok_length sanitizeItem elems
      (fun x hx => ⟨sanitizePure x, sanitizeItem_eq x (hnn x hx)⟩)

/-- Witness for C2 (amended): a two-item array (one item with no valid
fields at all) sanitizes to a two-item array. -/
theorem spec_C2_witness : Except.map List.length (sanitize parsedW2) = .ok 2 :=
  spec_C2_length parsedW2 [JVal.jobj [], itemW] rfl (by simp [itemW])

/-- C3: whenever the structuring output is a string that fails to parse as
JSON (on a request that reaches the parse step), the handler answers with a
success status and body exactly the canonical empty items object; the parse
failure is recovered silently, not surfaced as an error. -/
theorem spec_C3_parse_failure (jp : String → Option JVal) (env : Env)
    (req : JsRequest) (key : String) (t : Option String) (s : String)
    (bs : List Nat)
    (hm : (req.method == "OPTIONS") = false)
    (hkey : env.apiKey = some key)
    (hct : hasMultipart (req.contentType.getD "") = true)
    (hfile : formGet req.form "file" = some (FormVal.blob bs))
    (htr : env.transcribe = .ok t)
    (hco : env.complete (t.getD "") = .ok (some s))
    (hne : s.isEmpty = false)
    (hjp : jp s = none) :
    handleT jp env req = (⟨200, some emptyItemsJson⟩, ["transcribe", "complete"]) := by
  simp [handleT, hm, hkey, hct, hfile, htr, hco, hne, hjp, sanitize, getProp,
    jsGet, mapJs, emptyItemsJson, Bind.bind, Except.bind]

/-- Witness for C3 at a concrete request, environment and parse model. -/
theorem spec_C3_witness :
    handleT jpNone envOk reqStd = (⟨200, some emptyItemsJson⟩, ["transcribe", "complete"]) :=
  spec_C3_parse_failure jpNone envOk reqStd "k" (some "meal description")
    "not json" [0] rfl rfl rfl rfl rfl rfl rfl rfl

/-- C4: a missing service credential, a throwing transcription call, or a
throwing structuring call each aborts the whole (non-preflight) request with
a server-error status and body exactly the error object carrying the
message, which has no items payload. -/
theorem spec_C4_faults :
    (∀ (jp : String → Option JVal) (env : Env) (req : JsRequest),
       (req.method == "OPTIONS") = false → env.apiKey = none →
       handleT jp env req = (⟨500, some (errBody msgNoKey)⟩, [])) ∧
    (∀ (jp : String → Option JVal) (env : Env) (req : JsRequest)
       (key : String) (bs : List Nat) (e : String),
       (req.method == "OPTIONS") = false → env.apiKey = some key →
       hasMultipart (req.contentType.getD "") = true →
       formGet req.form "file" = some (FormVal.blob bs) →
       env.transcribe = .error e →
       handleT jp env req = (⟨500, some (errBody e)⟩, ["transcribe"])) ∧
    (∀ (jp : String → Option JVal) (env : Env) (req : JsRequest)
       (key : String) (bs : List Nat) (t : Option String) (e : String),
       (req.method == "OPTIONS") = false → env.apiKey = some key →
       hasMultipart (req.contentType.getD "") = true →
       formGet req.form "file" = some (FormVal.blob bs) →
       env.transcribe = .ok t → env.complete (t.getD "") = .error e →
       handleT jp env req = (⟨500, some (errBody e)⟩, ["transcribe", "complete"])) ∧
    (∀ msg : String, jsGet (errBody msg) "items" = none) := by
  refine ⟨?_, ?_, ?_, ?_⟩
  · intro jp env req hm hkey
    simp [handleT, hm, hkey]
  · intro jp env req key bs e hm hkey hct hfile htr
    simp [handleT, hm, hkey, hct, hfile, htr]
  · intro jp env req key bs t e hm hkey hct hfile htr hco
    simp [handleT, hm, hkey, hct, hfile, htr, hco]
  · intro msg
    simp [errBody, jsGet]

/-- Witness for C4: the three fault cases at concrete environments. -/
theorem spec_C4_witness :
    handleT jpNone envNoKey reqStd = (⟨500, some (errBody msgNoKey)⟩, []) ∧
    handleT jpNone envTrFail reqStd =
      (⟨500, some (errBody "transcribe down")⟩, ["transcribe"]) ∧
    handleT jpNone envCoFail reqStd =
      (⟨500, some (errBody "complete down")⟩, ["transcribe", "complete"]) :=
  ⟨spec_C4_faults.1 jpNone envNoKey reqStd rfl rfl,
   spec_C4_faults.2.1 jpNone envTrFail reqStd "k" [0] "transcribe down"
     rfl rfl rfl rfl rfl,
   spec_C4_faults.2.2.1 jpNone envCoFail reqStd "k" [0]
     (some "meal description") "complete down" rfl rfl rfl rfl rfl rfl⟩

/-- C5: a (non-preflight) request on a configured service whose content type
does not contain multipart form data is answered with client-error status
400 and body exactly the expected-multipart error object, and no upstream
call is made. -/
theorem spec_C5_wrong_content_type (jp : String → Option JVal) (env : Env)
    (req : JsRequest) (key : String)
    (hm : (req.method == "OPTIONS") = false)
    (hkey : env.apiKey = some key)
    (hct : hasMultipart (req.contentType.getD "") = false) :
    handleT jp env req = (⟨400, some (errBody msgExpectedMultipart)⟩, []) := by
  simp [handleT, hm, hkey, hct]

/-- Witness for C5 at a concrete JSON request. -/
theorem spec_C5_witness :
    handleT jpNone envOk reqBadCT = (⟨400, some (errBody msgExpectedMultipart)⟩, []) :=
  spec_C5_wrong_content_type jpNone envOk reqBadCT "k" rfl rfl rfl

/-- C6: a (non-preflight) multipart request on a configured service with no
file field is answered with client-error status 400 and body exactly the
no-audio-file error object, and no upstream call is made. -/
theorem spec_C6_missing_file (jp : String → Option JVal) (env : Env)
    (req : JsRequest) (key : String)
    (hm : (req.method == "OPTIONS") = false)
    (hkey : env.apiKey = some key)
    (hct : hasMultipart (req.contentType.getD "") = true)
    (hfile : formGet req.form "file" = none) :
    handleT jp env req = (⟨400, some (errBody msgNoFile)⟩, []) := by
  simp [handleT, hm, hkey, hct, hfile]

/-- Witness for C6 at a concrete multipart request with an empty form. -/
theorem spec_C6_witness :
    handleT jpNone envOk reqNoFile = (⟨400, some (errBody msgNoFile)⟩, []) :=
  spec_C6_missing_file jpNone envOk reqNoFile "k" rfl rfl rfl rfl

/-- C10: a (non-preflight) multipart request on a configured service whose
file field is present but holds plain text rather than a binary blob is
answered exactly as the missing-file case: status 400 with the
no-audio-file error object, and no upstream call is made; the guard tests
the type of the value, not the presence of the field. -/
theorem spec_C10_text_file (jp : String → Option JVal) (env : Env)
    (req : JsRequest) (key : String) (s : String)
    (hm : (req.method == "OPTIONS") = false)
    (hkey : env.apiKey = some key)
    (hct : hasMultipart (req.contentType.getD "") = true)
    (hfile : formGet req.form "file" = some (FormVal.text s)) :
    handleT jp env req = (⟨400, some (errBody msgNoFile)⟩, []) := by
  simp [handleT, hm, hkey, hct, hfile]

/-- Witness for C10 at a concrete request with a text-valued file field. -/
theorem spec_C10_witness :
    handleT jpNone envOk reqTextFile = (⟨400, some (errBody msgNoFile)⟩, []) :=
  spec_C10_text_file jpNone envOk reqTextFile "k" "hello" rfl rfl rfl rfl

theorem objSet_keys_sub (fields : List (String × JVal)) (k : String) (v : JVal)
    (k1 : String) (h : k1 ∈ (objSet fields k v).map Prod.fst) :
    k1 ∈ fields.map Prod.fst ∨ k1 = k := by
  unfold objSet at h
  split at h
  · rcases List.mem_map.mp h with ⟨y, hy, hy1⟩
    rcases List.mem_map.mp hy with ⟨f, hf, hfy⟩
    by_cases hb : (f.1 == k) = true
    · rw [if_pos hb] at hfy
      subst hfy
      right
      rw [← hy1]
      simpa using hb
    · rw [if_neg hb] at hfy
      subst hfy
      left
      rw [← hy1]
      exact List.mem_map.mpr ⟨f, hf, rfl⟩
  · rw [List.map_append] at h
    rcases List.mem_append.mp h with h1 | h1
    · exact Or.inl h1
    · right
      simpa using h1

theorem setIfStr_keys_sub (fields : List (String × JVal)) (k : String)
    (o : Option JVal) (k1 : String)
    (h : k1 ∈ (setIfStr fields k o).map Prod.fst) :
    k1 ∈ fields.map Prod.fst ∨ (k1 = k ∧ isStrOpt o = true) := by
  cases o with
  | none => exact Or.inl h
  | some v =>
    cases v with
    | jstr s =>
      rcases objSet_keys_sub fields k _ k1 h with h1 | h1
      · exact Or.inl h1
      · exact Or.inr ⟨h1, rfl⟩
    | jnum q => exact Or.inl h
    | jbool b => exact Or.inl h
    | jnull => exact Or.inl h
    | jarr es => exact Or.inl h
    | jobj fs => exact Or.inl h

theorem setIfNum_keys_sub (fields : List (String × JVal)) (k : String)
    (o : Option JVal) (k1 : String)
    (h : k1 ∈ (setIfNum fields k o).map Prod.fst) :
    k1 ∈ fields.map Prod.fst ∨ (k1 = k ∧ isNumOpt o = true) := by
  cases o with
  | none => exact Or.inl h
  | some v =>
    cases v with
    | jstr s => exact Or.inl h
    | jnum q =>
      rcases objSet_keys_sub fields k _ k1 h with h1 | h1
      · exact Or.inl h1
      · exact Or.inr ⟨h1, rfl⟩
    | jbool b => exact Or.inl h
    | jnull => exact Or.inl h
    | jarr es => exact Or.inl h
    | jobj fs => exact Or.inl h

theorem sanitizeBase_keys (item : JVal) (k1 : String)
    (h : k1 ∈ (sanitizeBase item).map Prod.fst) :
    (k1 = "qty" ∧ isStrOpt (jsGet item "qty") = true) ∨
    (k1 = "n" ∧ isStrOpt (jsGet item "n") = true) ∨
    (k1 = "cal" ∧ isNumOpt (jsGet item "cal") = true) ∨
    (k1 = "p" ∧ isNumOpt (jsGet item "p") = true) ∨
    (k1 = "c" ∧ isNumOpt (jsGet item "c") = true) ∨
    (k1 = "f" ∧ isNumOpt (jsGet item "f") = true) ∨
    (k1 = "fib" ∧ isNumOpt (jsGet item "fib") = true) := by
  unfold sanitizeBase at h
  rcases setIfNum_keys_sub _ _ _ _ h with h | hfib
  · rcases setIfNum_keys_sub _ _ _ _ h with h | hf
    · rcases setIfNum_keys_sub _ _ _ _ h with h | hc
      · rcases setIfNum_keys_sub _ _ _ _ h with h | hp
        · rcases setIfNum_keys_sub _ _ _ _ h with h | hcal
          · rcases setIfStr_keys_sub _ _ _ _ h with h | hn
            · rcases setIfStr_keys_sub _ _ _ _ h with h | hq
              · cases h
              · exact Or.inl hq
            · exact Or.inr (Or.inl hn)
          · exact Or.inr (Or.inr (Or.inl hcal))
        · exact Or.inr (Or.inr (Or.inr (Or.inl hp)))
      · exact Or.inr (Or.inr (Or.inr (Or.inr (Or.inl hc))))
    · exact Or.inr (Or.inr (Or.inr (Or.inr (Or.inr (Or.inl hf)))))
  · exact Or.inr (Or.inr (Or.inr (Or.inr (Or.inr (Or.inr hfib)))))

theorem microStep_not_mem (k : String) (hc : KNOWN_KEYS.contains k = true)
    (acc : List (String × JVal)) (kv : String × JVal)
    (h : k ∉ acc.map Prod.fst) : k ∉ (microStep acc kv).map Prod.fst := by
  unfold microStep
  by_cases hcond : (!(KNOWN_KEYS.contains kv.1) && isNumV kv.2 && microKeyMatch kv.1) = true
  · rw [if_pos hcond]
    intro hmem
    rcases objSet_keys_sub acc kv.1 kv.2 k hmem with h1 | h1
    · exact h h1
    · simp only [Bool.and_eq_true, Bool.not_eq_true'] at hcond
      rw [← h1] at hcond
      rw [hc] at hcond
      exact Bool.noConfusion hcond.1.1
  · rw [if_neg hcond]
    exact h

/-- C7: a known field present on the input item with a value of the wrong
type (for example `cal` holding a string) is omitted entirely from the
sanitized output item, never coerced to the expected type. -/
theorem spec_C7_wrong_type_dropped (item : JVal) (cl : List (String × JVal))
    (h : sanitizeItem item = .ok cl) (k : String) (hk : k ∈ KNOWN_KEYS)
    (v : JVal) (hv : jsGet item k = some v) (hw : knownTypeOk k v = false) :
    k ∉ cl.map Prod.fst := by
  have hnn : item ≠ JVal.jnull := by
    intro he
    subst he
    simp [jsGet] at hv
  rw [sanitizeItem_eq item hnn] at h
  have hcl : sanitizePure item = cl := by injection h
  subst hcl
  have hc : KNOWN_KEYS.contains k = true := List.elem_iff.mpr hk
  intro hmem
  have hbase : k ∈ (sanitizeBase item).map Prod.fst := by
    by_contra hnb
    exact foldl_preserve (fun acc => k ∉ acc.map Prod.fst) microStep
      (fun b a hb => microStep_not_mem k hc b a hb) (jsEntries item)
      (sanitizeBase item) hnb hmem
  rcases sanitizeBase_keys item k hbase with
    ⟨hkq, ht⟩ | ⟨hkq, ht⟩ | ⟨hkq, ht⟩ | ⟨hkq, ht⟩ | ⟨hkq, ht⟩ | ⟨hkq, ht⟩ | ⟨hkq, ht⟩ <;>
    subst hkq <;> rw [hv] at ht <;> cases v <;>
    simp_all [isStrOpt, isNumOpt, knownTypeOk, isStrV, isNumV]

/-- Witness for C7: a string-valued calories field is dropped. -/
theorem spec_C7_witness : "cal" ∉ [("qty", JVal.jstr "1")].map Prod.fst :=
  spec_C7_wrong_type_dropped itemWrong [("qty", JVal.jstr "1")] rfl "cal"
    (by simp [KNOWN_KEYS]) (JVal.jstr "160") rfl rfl

/-- C8 counterexample: the micronutrient pattern is applied with the
case-insensitive flag, so the key K_MG — whose abbreviation letters are
uppercase — is kept by sanitization, refuting the claim that no validated
micronutrient key contains uppercase abbreviation letters. -/
theorem spec_C8_counterexample :
    sanitizeItem itemUpper = Except.ok [("K_MG", JVal.jnum 5)] ∧
    ("K_MG".toList.any Char.isUpper) = true :=
  ⟨rfl, rfl⟩

theorem microKeyMatch_spec (s : String) (h : microKeyMatch s = true) :
    microKeySpec s := by
  unfold microKeyMatch at h
  rw [List.any_eq_true] at h
  rcases h with ⟨i, hi, hcond⟩
  simp only [Bool.and_eq_true] at hcond
  rcases hcond with ⟨⟨hlen, hall⟩, hmatch⟩
  rcases hdrop : s.toList.drop (i + 1) with _ | ⟨c, rest⟩
  · rw [hdrop] at hmatch
    simp at hmatch
  · rw [hdrop] at hmatch
    simp only [Bool.and_eq_true] at hmatch
    rcases hmatch with ⟨hund, hunit⟩
    have hcu : c = '_' := by simpa using hund
    subst hcu
    refine ⟨String.mk (s.toList.take (i + 1)), String.mk rest, ?_, ?_, ?_, ?_, ?_⟩
    · have hsplit : s.toList = s.toList.take (i + 1) ++ '_' :: rest := by
        conv_lhs => rw [← List.take_append_drop (i + 1) s.toList]
        rw [hdrop]
      calc s = String.mk s.toList := rfl
        _ = String.mk (s.toList.take (i + 1) ++ '_' :: rest) := by rw [← hsplit]
        _ = String.mk (s.toList.take (i + 1)) ++ "_" ++ String.mk rest := by
              rw [show ('_' :: rest) = ['_'] ++ rest from rfl, ← List.append_assoc]
              rfl
    · have hl : (s.toList.take (i + 1)).length = i + 1 := by simpa using hlen
      show 1 ≤ (s.toList.take (i + 1)).length
      omega
    · have hl : (s.toList.take (i + 1)).length = i + 1 := by simpa using hlen
      have hi4 : i < 4 := by simpa using hi
      show (s.toList.take (i + 1)).length ≤ 4
      omega
    · intro ch hch
      exact List.all_eq_true.mp hall ch hch
    · exact List.elem_iff.mp hunit

/-- C8 (amended): every non-known field key appearing in the sanitized
output carries a numeric value and decomposes as a 1-to-4-letter ASCII
abbreviation (either case accepted, since the pattern is tested
case-insensitively), an underscore, and a unit suffix that lowercases to
one of mg, mcg, iu, g, mgdl, mmoll. -/
theorem spec_C8_micro_keys (parsed : JVal) (items : List (List (String × JVal)))
    (h : sanitize parsed = .ok items) :
    ∀ it ∈ items, ∀ kv ∈ it, kv.1 ∉ KNOWN_KEYS → microOk kv := by
  intro it hit kv hkv hnk
  rcases sanitize_fieldOk parsed items h it hit kv hkv with
    h1 | h1 | h1 | h1 | h1 | h1 | h1 | h1
  · exact absurd (h1.1 ▸ hnk) (by simp [KNOWN_KEYS])
  · exact absurd (h1.1 ▸ hnk) (by simp [KNOWN_KEYS])
  · exact absurd (h1.1 ▸ hnk) (by simp [KNOWN_KEYS])
  · exact absurd (h1.1 ▸ hnk) (by simp [KNOWN_KEYS])
  · exact absurd (h1.1 ▸ hnk) (by simp [KNOWN_KEYS])
  · exact absurd (h1.1 ▸ hnk) (by simp [KNOWN_KEYS])
  · exact absurd (h1.1 ▸ hnk) (by simp [KNOWN_KEYS])
  · exact ⟨h1.2, microKeyMatch_spec kv.1 h1.1⟩

/-- Witness for C8 (amended): the uppercase key K_MG with its numeric value
satisfies the micronutrient shape. -/
theorem spec_C8_witness : microOk ("K_MG", JVal.jnum 5) :=
  spec_C8_micro_keys parsedUpper [[("K_MG", JVal.jnum 5)]] rfl
    [("K_MG", JVal.jnum 5)] (by simp) ("K_MG", JVal.jnum 5) (by simp)
    (by decide)

theorem foldl_totals_field (toNum : String → ℚ) (g : Totals → ℚ)
    (f : TokenItem → ℚ)
    (hstep : ∀ acc it, g (stepItem toNum acc it) = g acc + f it) :
    ∀ (l : List TokenItem) (acc : Totals),
      g (l.foldl (stepItem toNum) acc) = g acc + (l.map f).sum := by
  intro l
  induction l with
  | nil => intro acc; simp
  | cons a t ih =>
    intro acc
    rw [List.foldl_cons, ih, hstep, List.map_cons, List.sum_cons, add_assoc]

/-- C9: the aggregation step sums per-item macros into meal totals, a macro
field missing from an item contributing zero; on the two-item example with
calories 100 and 200 and protein 5 and 10 the computed totals are
total calories 300 and protein 15 (and the never-present carbs, fat and
fiber total zero). -/
theorem spec_C9_totals (toNum : String → ℚ) :
    (∀ l : List TokenItem,
      (computeTotals toNum l).total_calories =
        (l.map (fun it => jsNumber toNum (tGet it "cal"))).sum ∧
      (computeTotals toNum l).protein =
        (l.map (fun it => jsNumber toNum (tGet it "p"))).sum ∧
      (computeTotals toNum l).carbs =
        (l.map (fun it => jsNumber toNum (tGet it "c"))).sum ∧
      (computeTotals toNum l).fat =
        (l.map (fun it => jsNumber toNum (tGet it "f"))).sum ∧
      (computeTotals toNum l).fiber =
        (l.map (fun it => jsNumber toNum (tGet it "fib"))).sum) ∧
    jsNumber toNum none = 0 ∧
    (computeTotals toNum exampleItems).total_calories = 300 ∧
    (computeTotals toNum exampleItems).protein = 15 ∧
    (computeTotals toNum exampleItems).carbs = 0 ∧
    (computeTotals toNum exampleItems).fat = 0 ∧
    (computeTotals toNum exampleItems).fiber = 0 := by
  have hcal := foldl_totals_field toNum Totals.total_calories
    (fun it => jsNumber toNum (tGet it "cal")) (fun acc it => rfl)
  have hp := foldl_totals_field toNum Totals.protein
    (fun it => jsNumber toNum (tGet it "p")) (fun acc it => rfl)
  have hc := foldl_totals_field toNum Totals.carbs
    (fun it => jsNumber toNum (tGet it "c")) (fun acc it => rfl)
  have hf := foldl_totals_field toNum Totals.fat
    (fun it => jsNumber toNum (tGet it "f")) (fun acc it => rfl)
  have hfib := foldl_totals_field toNum Totals.fiber
    (fun it => jsNumber toNum (tGet it "fib")) (fun acc it => rfl)
  have hgen : ∀ l : List TokenItem,
      (computeTotals toNum l).total_calories =
        (l.map (fun it => jsNumber toNum (tGet it "cal"))).sum ∧
      (computeTotals toNum l).protein =
        (l.map (fun it => jsNumber toNum (tGet it "p"))).sum ∧
      (computeTotals toNum l).carbs =
        (l.map (fun it => jsNumber toNum (tGet it "c"))).sum ∧
      (computeTotals toNum l).fat =
        (l.map (fun it => jsNumber toNum (tGet it "f"))).sum ∧
      (computeTotals toNum l).fiber =
        (l.map (fun it => jsNumber toNum (tGet it "fib"))).sum := by
    intro l
    refine ⟨?_, ?_, ?_, ?_, ?_⟩
    · rw [computeTotals, hcal l]; simp
    · rw [computeTotals, hp l]; simp
    · rw [computeTotals, hc l]; simp
    · rw [computeTotals, hf l]; simp
    · rw [computeTotals, hfib l]; simp
  refine ⟨hgen, rfl, ?_, ?_, ?_, ?_, ?_⟩
  · rw [(hgen exampleItems).1]
    simp [exampleItems, tGet, jsNumber, List.find?]
    norm_num
  · rw [(hgen exampleItems).2.1]
    simp [exampleItems, tGet, jsNumber, List.find?]
    norm_num
  · rw [(hgen exampleItems).2.2.1]
    simp [exampleItems, tGet, jsNumber, List.find?]
  · rw [(hgen exampleItems).2.2.2.1]
    simp [exampleItems, tGet, jsNumber, List.find?]
  · rw [(hgen exampleItems).2.2.2.2]
    simp [exampleItems, tGet, jsNumber, List.find?]

end VoiceNourish
